import Mathlib

/-!
Verification development for the table-consolidation core of the parsesaas
backend (`backend/services/table_extractor.py`).  The Python functions
`process_tables_sequentially` and `convert_to_structured_format` are embedded
shallowly: pandas DataFrames become a column list plus a rectangular cell
grid of strings, table JSON records become association lists, and the
Python string primitives used by the code (`str.isdigit`, `str.lower`,
`str.strip`, `' '.join`, substring `in`, `str.replace`) are modelled over
`List Char` so that every definition evaluates by kernel reduction.

Model boundaries (documented, not load-bearing for any theorem below):
cell text is modelled as strings (docling emits text cells), Python's
unicode-aware `isdigit`/`lower`/`strip` are modelled on their ASCII
behaviour, JSON object keys are modelled as ordered association lists with
distinct keys, and the `\uXXXX` decoder works code-point-wise on the Basic
Multilingual Plane (surrogate-pair recombination is not modelled).
-/

namespace ParseSaas

/-- Python `str.isdigit` restricted to ASCII: true iff the string is
nonempty and every character is a decimal digit (the placeholder headers
this pipeline tests are `"0"`, `"1"`, ...). -/
def pyIsDigit (s : String) : Bool :=
  !s.isEmpty && s.toList.all Char.isDigit

/-- Python whitespace stripped by `str.strip` (ASCII portion). -/
def pyIsSpace (c : Char) : Bool :=
  c = ' ' || c = '\t' || c = '\n' || c = '\r' || c = '\x0b' || c = '\x0c'

/-- Python `str.strip`: drop leading and trailing whitespace. -/
def pyStrip (s : String) : String :=
  ⟨((s.toList.dropWhile pyIsSpace).reverse.dropWhile pyIsSpace).reverse⟩

/-- Python `str.lower` (ASCII portion). -/
def pyLower (s : String) : String :=
  ⟨s.toList.map Char.toLower⟩

/-- Python `sub in s` substring test, scanning left to right. -/
def listHasInfix (l pat : List Char) : Bool :=
  pat.isPrefixOf l ||
    match l with
    | [] => false
    | _ :: r => listHasInfix r pat

/-- Python `pat in s` on strings. -/
def containsSub (s pat : String) : Bool :=
  listHasInfix s.toList pat.toList

/-- Python `' '.join(xs)`. -/
def spaceJoin : List String → String
  | [] => ""
  | [s] => s
  | s :: rest => s ++ " " ++ spaceJoin rest

/-- A raw row as ingested from the extraction engine JSON: an ordered
mapping from column label to cell text (a Python dict record). -/
abbrev Row := List (String × String)

/-- One entry of `tables_json["tables"]` as consumed by
`process_tables_sequentially`: the reported column-label list and the
`data` records.  Page/location metadata is carried by the source but never
read by the consolidation logic, so it is omitted. -/
structure RawTable where
  columns : List String
  data : List Row
deriving DecidableEq

/-- Model of a pandas DataFrame as this pipeline uses one: an ordered
column-label list and one list of cell strings per row, positionally
aligned with `cols`. -/
structure DF where
  cols : List String
  cells : List (List String)
deriving DecidableEq

/-- pandas `df.empty`: either axis has length zero. -/
def DF.isEmptyDF (d : DF) : Bool :=
  d.cells.isEmpty || d.cols.isEmpty

/-- Append a key if it is not present yet (dict-key union step). -/
def insertKey (acc : List String) (k : String) : List String :=
  if k ∈ acc then acc else acc ++ [k]

/-- First-seen-order union of a list of key lists. -/
def keyFold (ls : List (List String)) : List String :=
  ls.foldl (fun acc ks => ks.foldl insertKey acc) []

/-- Columns `pd.DataFrame(records)` derives from a list of dict records:
the union of the record keys in first-appearance order. -/
def rowsKeyUnion (rows : List Row) : List String :=
  keyFold (rows.map (fun r => r.map Prod.fst))

/-- `pd.DataFrame(records)` followed by `fillna('')`: columns are the
first-seen key union, and each cell is the record's value at that key,
with a missing key (pandas `NaN`) becoming `""`. -/
def mkDF (rows : List Row) : DF :=
  let cols := rowsKeyUnion rows
  ⟨cols, rows.map (fun r => cols.map (fun c => (r.lookup c).getD ""))⟩

/-- The fixed header keyword list of `process_tables_sequentially`. -/
def headerKeywords : List String :=
  ["date", "description", "amount", "balance", "transaction", "credit",
   "debit", "particulars", "narration", "details", "ref", "cheque",
   "check", "withdrawal", "deposit"]

/-- `first_row_text = ' '.join(str(val).lower() for val in first_row.values)`
followed by `any(keyword in first_row_text for keyword in header_keywords)`
(after `fillna('')` no value is NaN, so the `pd.notna` filter keeps all). -/
def hasHeaderKeyword (row : List String) : Bool :=
  headerKeywords.any (fun k => containsSub (spaceJoin (row.map pyLower)) k)

/-- `generic_headers = [f'Column_{i+1}' for i in range(len(df.columns))]`. -/
def genericCols (n : Nat) : List String :=
  (List.range n).map (fun i => "Column_" ++ toString (i + 1))

/-- Split-column repair (`if '' in df.columns:` block).  The code looks up
the first `''` label; when its index `i` is positive it rewrites the left
neighbour to `strip(left) + ' ' + strip(right)` row-wise and drops column
`i`.  The pandas column operations succeed exactly when both the `''`
label and its left neighbour occur once among the labels; in every other
case (`''` absent, `i = 0`, or a raised pandas error caught by the
`except` handler) the table passes through unchanged. -/
def mergeSplit (d : DF) : DF :=
  match List.findIdx? (fun c => c == "") d.cols with
  | none => d
  | some i =>
    if i = 0 then d
    else
      let target := d.cols.getD (i - 1) ""
      if d.cols.count "" == 1 && d.cols.count target == 1 then
        ⟨d.cols.eraseIdx i,
         d.cells.map (fun r =>
           (r.set (i - 1)
             (pyStrip (r.getD (i - 1) "") ++ " " ++ pyStrip (r.getD i ""))).eraseIdx i)⟩
      else d

/-- Processing of one table after the first (`for table in data['tables'][1:]`):
skip if `data` is missing/empty or the DataFrame is empty; if the
data-derived columns are all numeric, adopt the first row as headers when
it bears a keyword (dropping it), else adopt the master headers on a
column-count match, else synthesize generic names; finally attempt the
split-column repair. -/
def processSubsequent (master : List String) (t : RawTable) : Option DF :=
  if t.data.isEmpty then none
  else
    let d := mkDF t.data
    if d.isEmptyDF then none
    else
      let d2 :=
        if d.cols.all pyIsDigit then
          if hasHeaderKeyword (d.cells.headD []) then
            ⟨(d.cells.headD []).map pyStrip, d.cells.tail⟩
          else if d.cols.length = master.length then
            ⟨master, d.cells⟩
          else
            ⟨genericCols d.cols.length, d.cells⟩
        else d
      some (mergeSplit d2)

/-- Master-header adoption from the first table:
`if first_table.get('columns') and not all(str(col).isdigit() for col in ...)`.
`none` is the `"Cannot proceed"` branch. -/
def masterHeadersOf (t : RawTable) : Option (List String) :=
  if !t.columns.isEmpty && !(t.columns.all pyIsDigit) then some t.columns else none

/-- The `all_processed_dfs` list: the first table's DataFrame is appended
as built (only `fillna('')` applied), every later table goes through
`processSubsequent`.  Empty when there are no tables or the first table
fails the master-header check. -/
def processedDfs (tables : List RawTable) : List DF :=
  match tables with
  | [] => []
  | t :: rest =>
    match masterHeadersOf t with
    | none => []
    | some master => mkDF t.data :: rest.filterMap (processSubsequent master)

/-- Column lookup in a positionally aligned row, pandas-style: the value
under the first column labelled `c`, or `""` when no column matches. -/
def lookupInDF (cols : List String) (r : List String) (c : String) : String :=
  match List.findIdx? (fun x => x == c) cols with
  | some i => r.getD i ""
  | none => ""

/-- First-seen-order union of the column labels of several DataFrames. -/
def unionColsOf (dfs : List DF) : List String :=
  keyFold (dfs.map (fun d => d.cols))

/-- Whether every DataFrame carries the same column list as the first. -/
def sameColsAll (dfs : List DF) : Bool :=
  match dfs with
  | [] => true
  | d :: rest => rest.all (fun d2 => d2.cols = d.cols)

/-- `pd.concat(all_processed_dfs, ignore_index=True)` followed by
`fillna('')`: with identical column lists the grids are stacked under the
shared columns; otherwise the result carries the first-seen union of the
labels and each row is reindexed to it, missing labels filled with `""`
(`sort=False` keeps first-seen order). -/
def concatDFs (dfs : List DF) : DF :=
  if sameColsAll dfs then
    ⟨(dfs.headD ⟨[], []⟩).cols, dfs.flatMap (fun d => d.cells)⟩
  else
    let u := unionColsOf dfs
    ⟨u, dfs.flatMap (fun d => d.cells.map (fun r => u.map (lookupInDF d.cols r)))⟩

/-- Column-label normalization of `get_normalized_column_key`. -/
def normalizeCol (c : String) : String :=
  let l := pyStrip (pyLower c)
  if containsSub l "value" && containsSub l "date" then "value_date"
  else if l = "value" then "value_date"
  else ⟨l.toList.map (fun ch => if ch = ' ' then '_' else ch)⟩

/-- Normalized signature of a column list. -/
def normKey (cols : List String) : List String :=
  cols.map normalizeCol

/-- One entry of the `column_groups` dict: the key is the first member's
column list as encountered, members are `(table_number, dataframe)` in
encounter order.  The source stores each member relabelled to the key
(`df_standardized.columns = existing_columns`); this model keeps the
member's own DataFrame and applies the relabelling where the group is
merged, which leaves every observable value unchanged because only the
cell grid of a member is ever read. -/
structure Group where
  key : List String
  members : List (Nat × DF)
deriving DecidableEq

/-- Table numbers of a group's members, in encounter order. -/
def Group.memberNums (g : Group) : List Nat :=
  g.members.map Prod.fst

/-- One pass of the group-matching loop: scan existing groups in insertion
order; `columns_are_similar` holds iff the normalized signatures agree
(equal signatures force equal lengths, so the separate length check of the
source is subsumed); on a match append the table to that group, otherwise
append a fresh group keyed by the table's own columns. -/
def insertTable (gs : List Group) (n : Nat) (d : DF) : List Group :=
  match gs with
  | [] => [⟨d.cols, [(n, d)]⟩]
  | g :: rest =>
    if normKey d.cols = normKey g.key then
      ⟨g.key, g.members ++ [(n, d)]⟩ :: rest
    else
      g :: insertTable rest n d

/-- Fold of the grouping loop over the processed DataFrames, numbering
tables from `n`. -/
def groupAux (gs : List Group) (n : Nat) (ds : List DF) : List Group :=
  match ds with
  | [] => gs
  | d :: rest => groupAux (insertTable gs n d) (n + 1) rest

/-- `column_groups` built over `all_processed_dfs` (tables numbered from 1). -/
def groupTables (ds : List DF) : List Group :=
  groupAux [] 1 ds

/-- One entry of `individual_tables`. -/
structure MergedTable where
  number : Nat
  columns : List String
  rowCount : Nat
  data : DF
  mergedFrom : List Nat
deriving DecidableEq

/-- Merged per-group tables: each group's members are relabelled to the
group key and concatenated, and groups receive sequential display numbers
starting at 1 in emission order. -/
def mkIndividual (gs : List Group) : List MergedTable :=
  gs.enum.map (fun p =>
    let merged : DF := ⟨p.2.key, p.2.members.flatMap (fun m => m.2.cells)⟩
    { number := p.1 + 1
      columns := p.2.key
      rowCount := merged.cells.length
      data := merged
      mergedFrom := p.2.memberNums })

/-- One entry of the `table_info` list derived from a merged table. -/
structure TableInfoEntry where
  number : Nat
  name : String
  columns : List String
  rowCount : Nat
  sampleData : List (List String)
  mergedFrom : List Nat
deriving DecidableEq

/-- `table_info` built from `individual_tables`. -/
def mkTableInfo (ms : List MergedTable) : List TableInfoEntry :=
  ms.map (fun m =>
    ⟨m.number, "Transaction Table " ++ toString m.number, m.columns,
     m.rowCount, m.data.cells.take 3, m.mergedFrom⟩)

/-- The tuple `process_tables_sequentially` returns to its caller (the
sample-transaction preview list is derived data not touched by any claim
and is omitted). -/
structure ProcOut where
  ledger : DF
  info : List TableInfoEntry
  individual : List MergedTable
deriving DecidableEq

/-- The `return pd.DataFrame(), [], [], []` value of the no-tables and
failed-master-header branches. -/
def emptyProcOut : ProcOut :=
  ⟨⟨[], []⟩, [], []⟩

/-- Core of `process_tables_sequentially` after the unicode fix-up:
resolve every table, concatenate the ledger, group, and derive the
per-group exports.  The no-tables and unusable-first-table branches both
return the empty tuple. -/
def processTables (tables : List RawTable) : ProcOut :=
  match processedDfs tables with
  | [] => emptyProcOut
  | d :: rest =>
    let dfs := d :: rest
    let ind := mkIndividual (groupTables dfs)
    ⟨concatDFs dfs, mkTableInfo ind, ind⟩

/-- Hex digit emitted by `json.dumps` escapes (lowercase). -/
def hexDigit (n : Nat) : Char :=
  if n < 10 then Char.ofNat (48 + n) else Char.ofNat (87 + n)

/-- Four hex digits of a code point below 0x10000. -/
def hex4 (n : Nat) : List Char :=
  [hexDigit (n / 4096 % 16), hexDigit (n / 256 % 16),
   hexDigit (n / 16 % 16), hexDigit (n % 16)]

/-- Escapes `json.dumps` (with its default `ensure_ascii=True`) emits for
one character of a string value: `\"`, `\\`, the named control escapes,
`\u00XX` for the remaining control characters, and `\uXXXX` for everything
non-ASCII ('/' is not escaped, which is what makes the `/uni` fix-up
reach the serialized text). -/
def jsonEscapeChar (c : Char) : List Char :=
  if c = '"' then ['\\', '"']
  else if c = '\\' then ['\\', '\\']
  else if c = '\n' then ['\\', 'n']
  else if c = '\r' then ['\\', 'r']
  else if c = '\t' then ['\\', 't']
  else if c = '\x08' then ['\\', 'b']
  else if c = '\x0c' then ['\\', 'f']
  else if c.toNat < 0x20 || (0x7f ≤ c.toNat && c.toNat < 0x10000) then
    '\\' :: 'u' :: hex4 c.toNat
  else if 0x10000 ≤ c.toNat then
    '\\' :: 'u' :: hex4 (0xd800 + (c.toNat - 0x10000) / 1024) ++
      '\\' :: 'u' :: hex4 (0xdc00 + (c.toNat - 0x10000) % 1024)
  else [c]

/-- Body of the serialized JSON string literal for one string value. -/
def jsonEscape (s : String) : String :=
  ⟨s.toList.flatMap jsonEscapeChar⟩

/-- `json_string.replace('/uni', r'\u')`: every occurrence of `/uni`,
scanned left to right, becomes `\u`. -/
def replaceUniChars : List Char → List Char
  | '/' :: 'u' :: 'n' :: 'i' :: rest => '\\' :: 'u' :: replaceUniChars rest
  | c :: rest => c :: replaceUniChars rest
  | [] => []

/-- Value of a hex digit accepted by `json.loads` in `\uXXXX`. -/
def hexVal? (c : Char) : Option Nat :=
  if '0' ≤ c && c ≤ '9' then some (c.toNat - 48)
  else if 'a' ≤ c && c ≤ 'f' then some (c.toNat - 87)
  else if 'A' ≤ c && c ≤ 'F' then some (c.toNat - 55)
  else none

/-- `json.loads` decoding of a string literal's body: a backslash must be
followed by a recognized escape, and `\u` by exactly four hex digits —
anything else raises `json.JSONDecodeError`, modelled as `none`.  Decoded
code points go through `Char.ofNat` (surrogate recombination is outside
this model). -/
def jsonUnescape : List Char → Option (List Char)
  | [] => some []
  | '\\' :: [] => none
  | '\\' :: e :: r =>
    if e = 'u' then
      match r with
      | a :: b :: c :: d :: r2 =>
        match hexVal? a, hexVal? b, hexVal? c, hexVal? d with
        | some ha, some hb, some hc, some hd =>
          (Char.ofNat (((ha * 16 + hb) * 16 + hc) * 16 + hd) :: ·) <$> jsonUnescape r2
        | _, _, _, _ => none
      | _ => none
    else if e = '"' then ('"' :: ·) <$> jsonUnescape r
    else if e = '\\' then ('\\' :: ·) <$> jsonUnescape r
    else if e = '/' then ('/' :: ·) <$> jsonUnescape r
    else if e = 'b' then ('\x08' :: ·) <$> jsonUnescape r
    else if e = 'f' then ('\x0c' :: ·) <$> jsonUnescape r
    else if e = 'n' then ('\n' :: ·) <$> jsonUnescape r
    else if e = 'r' then ('\r' :: ·) <$> jsonUnescape r
    else if e = 't' then ('\t' :: ·) <$> jsonUnescape r
    else none
  | c :: rest => (c :: ·) <$> jsonUnescape rest

/-- Effect of `json.dumps` → `.replace('/uni', r'\u')` → `json.loads` on
one string of the input structure. -/
def strUniFix (s : String) : Option String :=
  (jsonUnescape (replaceUniChars (jsonEscape s).toList)).map (fun cs => ⟨cs⟩)

/-- The fix-up applied to one record (keys and values). -/
def uniFixRow (r : Row) : Option Row :=
  r.mapM (fun p => do pure (← strUniFix p.1, ← strUniFix p.2))

/-- The fix-up applied to one table. -/
def uniFixTable (t : RawTable) : Option RawTable := do
  pure { columns := ← t.columns.mapM strUniFix, data := ← t.data.mapM uniFixRow }

/-- The fix-up applied to the whole `tables` list. -/
def uniFixTables (ts : List RawTable) : Option (List RawTable) :=
  ts.mapM uniFixTable

/-- Failure modes of a `process_tables_sequentially` call. -/
inductive ProcError where
  /-- a `json.JSONDecodeError` escaping from the `/uni` fix-up -/
  | jsonDecode : ProcError
  /-- the `NoMasterHeaders` error of the specification; declared so the
  claimed fatal error is statable — no branch of the source produces it -/
  | noMasterHeaders : ProcError
deriving DecidableEq

/-- Full `process_tables_sequentially`: the unicode fix-up runs first and
is the function's only raise site; afterwards every input returns
normally. -/
def processTablesE (ts : List RawTable) : Except ProcError ProcOut :=
  match uniFixTables ts with
  | none => .error .jsonDecode
  | some ts2 => .ok (processTables ts2)

/-- Cell clean-up of `convert_to_structured_format`: the literal strings
`nan`/`none`/`null` (case-insensitive, compared before stripping) become
`""`, everything else is stripped.  (`pd.isna`/`None` cells were already
coalesced to `""` by the earlier `fillna('')` calls.) -/
def cleanCell (v : String) : String :=
  if pyLower v = "nan" || pyLower v = "none" || pyLower v = "null" then ""
  else pyStrip v

/-- Output contract of `convert_to_structured_format`; `detectedHeaders`
is `none` on the empty-DataFrame branch, which emits no
`detected_headers` key at all. -/
structure StructuredOut where
  transactions : List (List (String × String))
  totalTransactions : Nat
  detectedHeaders : Option (List String)
deriving DecidableEq

/-- `convert_to_structured_format(df, ...)`: every row rendered as a
column→cleaned-string mapping, `metadata.detected_headers =
df.columns.tolist()`. -/
def convertToStructuredFormat (df : DF) : StructuredOut :=
  if df.isEmptyDF then ⟨[], 0, none⟩
  else
    let txns := df.cells.map (fun r => df.cols.zip (r.map cleanCell))
    ⟨txns, txns.length, some df.cols⟩

instance : DecidableEq (Except ProcError ProcOut) := fun x y =>
  match x, y with
  | .ok a, .ok b =>
    if h : a = b then isTrue (by rw [h]) else isFalse (by simp [h])
  | .error a, .error b =>
    if h : a = b then isTrue (by rw [h]) else isFalse (by simp [h])
  | .ok _, .error _ => isFalse (fun h => Except.noConfusion h)
  | .error _, .ok _ => isFalse (fun h => Except.noConfusion h)

/-- Default DataFrame used with `List.getD`. -/
def dfltDF : DF := ⟨[], []⟩

/-! Helper lemmas about the list primitives of the embedding. -/

lemma mergeSplit_cells_length (d : DF) :
    (mergeSplit d).cells.length = d.cells.length := by
  unfold mergeSplit
  cases h : List.findIdx? (fun c => c == "") d.cols with
  | none => rfl
  | some i =>
    dsimp only
    split
    · rfl
    · split
      · simp
      · rfl

lemma findIdx?_some_facts {α : Type} (p : α → Bool) (l : List α) (i : Nat) (dflt : α)
    (h : List.findIdx? p l = some i) :
    i < l.length ∧ p (l.getD i dflt) = true ∧ ∀ j, j < i → p (l.getD j dflt) = false := by
  have hg := @List.findIdx?_eq_guard_findIdx_lt _ l p
  rw [h] at hg
  by_cases hlt : List.findIdx p l < l.length
  · simp only [Option.guard, hlt, if_pos] at hg
    obtain rfl : i = List.findIdx p l := by exact Option.some.inj hg
    have h1 := (List.findIdx_eq hlt).mp rfl
    refine ⟨hlt, ?_, ?_⟩
    · rw [List.getD_eq_getElem?_getD, List.getElem?_eq_getElem hlt]
      simpa using h1.1
    · intro j hj
      have hjl : j < l.length := lt_trans hj hlt
      rw [List.getD_eq_getElem?_getD, List.getElem?_eq_getElem hjl]
      simpa using h1.2 j hj
  · simp [Option.guard, hlt] at hg

lemma findIdx?_none_of_not_mem {c : String} {u : List String}
    (h : c ∉ u) : List.findIdx? (fun x => x == c) u = none := by
  refine List.findIdx?_eq_none_iff.mpr (fun x hx => ?_)
  have : x ≠ c := fun he => h (he ▸ hx)
  simpa using this

lemma mem_of_findIdx?_ne_none {c : String} {u : List String}
    (h : List.findIdx? (fun x => x == c) u ≠ none) : c ∈ u := by
  by_contra hc
  exact h (findIdx?_none_of_not_mem hc)

lemma getD_map_of_lt {α β : Type} (f : α → β) (l : List α) (i : Nat)
    (da : α) (db : β) (h : i < l.length) :
    (l.map f).getD i db = f (l.getD i da) := by
  rw [List.getD_eq_getElem?_getD, List.getElem?_map, List.getElem?_eq_getElem h,
    List.getD_eq_getElem?_getD, List.getElem?_eq_getElem h]
  rfl

lemma getD_mem_of_lt {α : Type} (l : List α) (i : Nat) (d : α) (h : i < l.length) :
    l.getD i d ∈ l := by
  rw [List.getD_eq_getElem?_getD, List.getElem?_eq_getElem h]
  exact List.getElem_mem h

/-! Key-union membership lemmas. -/

lemma mem_insertKey_of_mem {acc : List String} {a : String} (k : String)
    (h : a ∈ acc) : a ∈ insertKey acc k := by
  unfold insertKey
  split
  · exact h
  · exact List.mem_append_left _ h

lemma mem_insertKey_self (acc : List String) (k : String) : k ∈ insertKey acc k := by
  unfold insertKey
  split
  · assumption
  · exact List.mem_append_right _ (List.mem_singleton.mpr rfl)

lemma mem_foldl_insertKey_of_mem {a : String} :
    ∀ (l acc : List String), a ∈ acc → a ∈ l.foldl insertKey acc := by
  intro l
  induction l with
  | nil => intro acc h; exact h
  | cons k tl ih => intro acc h; exact ih _ (mem_insertKey_of_mem k h)

lemma mem_foldl_insertKey_self {a : String} :
    ∀ (l acc : List String), a ∈ l → a ∈ l.foldl insertKey acc := by
  intro l
  induction l with
  | nil => intro acc h; cases h
  | cons k tl ih =>
    intro acc h
    rcases List.mem_cons.mp h with rfl | h2
    · exact mem_foldl_insertKey_of_mem tl (insertKey acc a) (mem_insertKey_self acc a)
    · exact ih _ h2

lemma keyFold_go_preserve {a : String} :
    ∀ (ls : List (List String)) (acc : List String),
      a ∈ acc → a ∈ ls.foldl (fun acc ks => ks.foldl insertKey acc) acc := by
  intro ls
  induction ls with
  | nil => intro acc h; exact h
  | cons ks tl ih => intro acc h; exact ih _ (mem_foldl_insertKey_of_mem _ _ h)

lemma mem_keyFold {a : String} {ks : List String} :
    ∀ (ls : List (List String)) (acc : List String),
      ks ∈ ls → a ∈ ks → a ∈ ls.foldl (fun acc ks => ks.foldl insertKey acc) acc := by
  intro ls
  induction ls with
  | nil => intro acc h; cases h
  | cons ks2 tl ih =>
    intro acc h ha
    rcases List.mem_cons.mp h with rfl | h2
    · exact keyFold_go_preserve tl (ks.foldl insertKey acc) (mem_foldl_insertKey_self ks acc ha)
    · exact ih _ h2 ha

lemma mem_unionColsOf {dfs : List DF} {d : DF} {c : String}
    (hd : d ∈ dfs) (hc : c ∈ d.cols) : c ∈ unionColsOf dfs := by
  unfold unionColsOf keyFold
  exact mem_keyFold _ _ (List.mem_map_of_mem _ hd) hc

lemma mem_rowsKeyUnion {rows : List Row} {r : Row} {c : String}
    (hr : r ∈ rows) (hc : c ∈ r.map Prod.fst) : c ∈ rowsKeyUnion rows := by
  unfold rowsKeyUnion keyFold
  exact mem_keyFold _ _ (List.mem_map_of_mem _ hr) hc

lemma lookup_none_of_not_mem_keys {c : String} :
    ∀ {r : Row}, c ∉ r.map Prod.fst → r.lookup c = none := by
  intro r
  induction r with
  | nil => intro _; rfl
  | cons p tl ih =>
    intro h
    have h1 : c ≠ p.1 := fun he => h (by simp [he])
    have h2 : c ∉ tl.map Prod.fst := fun he => h (by simp [he])
    cases p with
    | mk k v =>
      have hbeq : (c == k) = false := by simpa using h1
      simp only [List.lookup, hbeq]
      exact ih h2

/-! Row-lookup lemmas for reindexed rows. -/

lemma lookupInDF_map_fun (u : List String) (f : String → String) (c : String)
    (hc : c ∈ u) : lookupInDF u (u.map f) c = f c := by
  unfold lookupInDF
  cases h : List.findIdx? (fun x => x == c) u with
  | none =>
    exfalso
    have := List.findIdx?_eq_none_iff.mp h c hc
    simp at this
  | some i =>
    dsimp only
    obtain ⟨hlt, hp, -⟩ := findIdx?_some_facts (fun x => x == c) u i "" h
    have hui : u.getD i "" = c := by simpa using hp
    rw [getD_map_of_lt f u i "" "" hlt, hui]

lemma lookupInDF_pad (u cols : List String) (r : List String) (c : String)
    (hsub : ∀ x ∈ cols, x ∈ u) :
    lookupInDF u (u.map (lookupInDF cols r)) c = lookupInDF cols r c := by
  by_cases hc : c ∈ u
  · exact lookupInDF_map_fun u _ c hc
  · have h1 : List.findIdx? (fun x => x == c) u = none := findIdx?_none_of_not_mem hc
    have h2 : List.findIdx? (fun x => x == c) cols = none := by
      refine findIdx?_none_of_not_mem (fun hm => hc (hsub c hm))
    simp [lookupInDF, h1, h2]

lemma flatMap_getD_offset {α β : Type} (f : α → List β) (da : α) (db : β) :
    ∀ (l : List α) (k j : Nat), k < l.length → j < (f (l.getD k da)).length →
      (l.flatMap f).getD (((l.take k).map (fun a => (f a).length)).sum + j) db
        = (f (l.getD k da)).getD j db := by
  intro l
  induction l with
  | nil => intro k j hk _; exact absurd hk (by simp)
  | cons a tl ih =>
    intro k j hk hj
    cases k with
    | zero =>
      simp only [List.take_zero, List.map_nil, List.sum_nil, Nat.zero_add,
        List.flatMap_cons, List.getD_cons_zero] at *
      rw [List.getD_eq_getElem?_getD, List.getElem?_append, if_pos hj,
        ← List.getD_eq_getElem?_getD]
    | succ k2 =>
      simp only [List.take_succ_cons, List.map_cons, List.sum_cons,
        List.flatMap_cons, List.getD_cons_succ] at *
      have hge : (f a).length ≤ (f a).length + (((tl.take k2).map (fun a => (f a).length)).sum + j) := by
        omega
      rw [Nat.add_assoc, List.getD_eq_getElem?_getD, List.getElem?_append_right hge,
        Nat.add_sub_cancel_left, ← List.getD_eq_getElem?_getD]
      exact ih k2 j (by simpa using hk) hj

lemma flatMap_length_sum {α β : Type} (f : α → List β) (l : List α) :
    (l.flatMap f).length = (l.map (fun a => (f a).length)).sum := by
  induction l with
  | nil => rfl
  | cons a tl ih => simp [List.flatMap_cons, ih]

lemma count_eraseIdx_zero {l : List String} {i : Nat}
    (hi : i < l.length) (hl : l.getD i "" = "")
    (hcount : l.count "" = 1)
    (hbefore : ∀ j, j < i → l.getD j "" ≠ "") :
    "" ∉ l.eraseIdx i := by
  have htake : List.count "" (l.take i) = 0 := by
    rw [List.count_eq_zero]
    intro hmem
    obtain ⟨n, hn, hget⟩ := List.mem_iff_getElem.mp hmem
    have hni : n < i := by
      have := hn; rw [List.length_take] at this; omega
    have hnl : n < l.length := by omega
    refine hbefore n hni ?_
    rw [List.getD_eq_getElem?_getD, List.getElem?_eq_getElem hnl]
    have : (l.take i)[n] = l[n] := List.getElem_take ..
    simp only [Option.getD_some]
    rw [← this, hget]
  have hgot : l[i]? = some "" := by
    rw [List.getElem?_eq_getElem hi]
    rw [List.getD_eq_getElem?_getD, List.getElem?_eq_getElem hi] at hl
    simpa using hl
  have hsplit : List.count "" (l.take (i + 1)) + List.count "" (l.drop (i + 1)) = 1 := by
    rw [← List.count_append, List.take_append_drop]
    exact hcount
  have htake1 : List.count "" (l.take (i + 1)) = 1 := by
    rw [List.take_succ, List.count_append, htake, hgot]
    simp
  have hdrop : List.count "" (l.drop (i + 1)) = 0 := by omega
  have : List.count "" (l.eraseIdx i) = 0 := by
    rw [List.eraseIdx_eq_take_drop_succ, List.count_append, htake, hdrop]
  exact List.count_eq_zero.mp this

/-! Invariants of the grouping fold, used to characterize group
membership by normalized signature. -/

/-- Every member of every group has the group's normalized signature,
where `sig` gives each table number its normalized column signature. -/
def InvMembers (sig : Nat → List String) (gs : List Group) : Prop :=
  ∀ g ∈ gs, ∀ m ∈ g.memberNums, sig m = normKey g.key

/-- Distinct groups carry distinct normalized signatures. -/
def InvKeys (gs : List Group) : Prop :=
  List.Pairwise (fun g1 g2 => normKey g1.key ≠ normKey g2.key) gs

/-- Every group's key is the column list of its first member. -/
def InvFirst (gs : List Group) : Prop :=
  ∀ g ∈ gs, ∃ p ms, g.members = p :: ms ∧ p.2.cols = g.key

lemma insertTable_invMembers {sig : Nat → List String} {n : Nat} {d : DF} :
    ∀ {gs : List Group}, InvMembers sig gs → sig n = normKey d.cols →
      InvMembers sig (insertTable gs n d) := by
  intro gs
  induction gs with
  | nil =>
    intro _ hn g hg m hm
    simp only [insertTable, List.mem_singleton] at hg
    subst hg
    simp only [Group.memberNums, List.map_cons, List.map_nil, List.mem_singleton] at hm
    subst hm
    exact hn
  | cons g0 rest ih =>
    intro hinv hn g hg m hm
    rw [insertTable] at hg
    split at hg
    · next heq =>
      rcases List.mem_cons.mp hg with rfl | hg2
      · simp only [Group.memberNums, List.map_append, List.map_cons, List.map_nil,
          List.mem_append, List.mem_singleton] at hm
        rcases hm with hm1 | rfl
        · exact hinv g0 (List.mem_cons_self _ _) m hm1
        · rw [hn, heq]
      · exact hinv g (List.mem_cons_of_mem _ hg2) m hm
    · rcases List.mem_cons.mp hg with rfl | hg2
      · exact hinv g (List.mem_cons_self _ _) m hm
      · exact ih (fun g2 hg2b => hinv g2 (List.mem_cons_of_mem _ hg2b)) hn g hg2 m hm

lemma insertTable_keys {n : Nat} {d : DF} :
    ∀ {gs : List Group} {g2 : Group}, g2 ∈ insertTable gs n d →
      normKey g2.key = normKey d.cols ∨ ∃ g ∈ gs, normKey g2.key = normKey g.key := by
  intro gs
  induction gs with
  | nil =>
    intro g2 hg
    simp only [insertTable, List.mem_singleton] at hg
    subst hg
    exact Or.inl rfl
  | cons g0 rest ih =>
    intro g2 hg
    rw [insertTable] at hg
    split at hg
    · next heq =>
      rcases List.mem_cons.mp hg with rfl | hg2
      · exact Or.inr ⟨g0, List.mem_cons_self _ _, rfl⟩
      · exact Or.inr ⟨g2, List.mem_cons_of_mem _ hg2, rfl⟩
    · rcases List.mem_cons.mp hg with rfl | hg2
      · exact Or.inr ⟨g2, List.mem_cons_self _ _, rfl⟩
      · rcases ih hg2 with h1 | ⟨g3, hg3, he⟩
        · exact Or.inl h1
        · exact Or.inr ⟨g3, List.mem_cons_of_mem _ hg3, he⟩

lemma insertTable_invKeys {n : Nat} {d : DF} :
    ∀ {gs : List Group}, InvKeys gs → InvKeys (insertTable gs n d) := by
  intro gs
  induction gs with
  | nil =>
    intro _
    simp [InvKeys, insertTable]
  | cons g0 rest ih =>
    intro hinv
    have hrest : InvKeys rest := (List.pairwise_cons.mp hinv).2
    have hhead : ∀ g2 ∈ rest, normKey g0.key ≠ normKey g2.key :=
      (List.pairwise_cons.mp hinv).1
    rw [insertTable]
    split
    · next heq =>
      exact List.pairwise_cons.mpr ⟨hhead, hrest⟩
    · next hne =>
      refine List.pairwise_cons.mpr ⟨?_, ih hrest⟩
      intro g2 hg2
      rcases insertTable_keys hg2 with h1 | ⟨g3, hg3, he⟩
      · rw [h1]; exact fun he2 => hne he2.symm
      · rw [he]; exact hhead g3 hg3

lemma insertTable_preserve (n : Nat) (d : DF) :
    ∀ {gs : List Group} {g : Group}, g ∈ gs →
      ∃ g2 ∈ insertTable gs n d, g2.key = g.key ∧ ∀ m ∈ g.memberNums, m ∈ g2.memberNums := by
  intro gs
  induction gs with
  | nil => intro g hg; cases hg
  | cons g0 rest ih =>
    intro g hg
    rw [insertTable]
    split
    · next heq =>
      rcases List.mem_cons.mp hg with rfl | hg2
      · refine ⟨⟨g.key, g.members ++ [(n, d)]⟩, List.mem_cons_self _ _, rfl, ?_⟩
        intro m hm
        simp only [Group.memberNums, List.map_append, List.mem_append]
        exact Or.inl hm
      · exact ⟨g, List.mem_cons_of_mem _ hg2, rfl, fun m hm => hm⟩
    · rcases List.mem_cons.mp hg with rfl | hg2
      · exact ⟨g, List.mem_cons_self _ _, rfl, fun m hm => hm⟩
      · obtain ⟨g2, hg2b, hk, hms⟩ := ih hg2
        exact ⟨g2, List.mem_cons_of_mem _ hg2b, hk, hms⟩

lemma insertTable_new_mem (n : Nat) (d : DF) :
    ∀ (gs : List Group),
      ∃ g2 ∈ insertTable gs n d, n ∈ g2.memberNums ∧ normKey g2.key = normKey d.cols := by
  intro gs
  induction gs with
  | nil =>
    refine ⟨⟨d.cols, [(n, d)]⟩, List.mem_singleton.mpr rfl, ?_, rfl⟩
    simp [Group.memberNums]
  | cons g0 rest ih =>
    rw [insertTable]
    split
    · next heq =>
      refine ⟨⟨g0.key, g0.members ++ [(n, d)]⟩, List.mem_cons_self _ _, ?_, heq.symm⟩
      simp [Group.memberNums]
    · obtain ⟨g2, hg2, hn, hk⟩ := ih
      exact ⟨g2, List.mem_cons_of_mem _ hg2, hn, hk⟩

lemma insertTable_invFirst {n : Nat} {d : DF} :
    ∀ {gs : List Group}, InvFirst gs → InvFirst (insertTable gs n d) := by
  intro gs
  induction gs with
  | nil =>
    intro _ g hg
    simp only [insertTable, List.mem_singleton] at hg
    subst hg
    exact ⟨(n, d), [], rfl, rfl⟩
  | cons g0 rest ih =>
    intro hinv g hg
    rw [insertTable] at hg
    split at hg
    · next heq =>
      rcases List.mem_cons.mp hg with rfl | hg2
      · obtain ⟨p, ms, hmem, hcols⟩ := hinv g0 (List.mem_cons_self _ _)
        exact ⟨p, ms ++ [(n, d)], by rw [hmem]; rfl, hcols⟩
      · exact hinv g (List.mem_cons_of_mem _ hg2)
    · rcases List.mem_cons.mp hg with rfl | hg2
      · exact hinv g (List.mem_cons_self _ _)
      · exact ih (fun g2 hg2b => hinv g2 (List.mem_cons_of_mem _ hg2b)) g hg2

lemma groupAux_invMembers {sig : Nat → List String} :
    ∀ (ds : List DF) (gs : List Group) (n : Nat), InvMembers sig gs →
      (∀ k, k < ds.length → sig (n + k) = normKey (ds.getD k dfltDF).cols) →
      InvMembers sig (groupAux gs n ds) := by
  intro ds
  induction ds with
  | nil => intro gs n h _; exact h
  | cons d rest ih =>
    intro gs n h hk
    rw [groupAux]
    refine ih _ _ (insertTable_invMembers h ?_) ?_
    · simpa using hk 0 (by simp)
    · intro k hkl
      have := hk (k + 1) (by simpa using Nat.succ_lt_succ hkl)
      simpa [Nat.add_assoc, Nat.add_comm 1 k] using this

lemma groupAux_invKeys :
    ∀ (ds : List DF) (gs : List Group) (n : Nat), InvKeys gs →
      InvKeys (groupAux gs n ds) := by
  intro ds
  induction ds with
  | nil => intro gs n h; exact h
  | cons d rest ih =>
    intro gs n h
    rw [groupAux]
    exact ih _ _ (insertTable_invKeys h)

lemma groupAux_invFirst :
    ∀ (ds : List DF) (gs : List Group) (n : Nat), InvFirst gs →
      InvFirst (groupAux gs n ds) := by
  intro ds
  induction ds with
  | nil => intro gs n h; exact h
  | cons d rest ih =>
    intro gs n h
    rw [groupAux]
    exact ih _ _ (insertTable_invFirst h)

lemma groupAux_preserve :
    ∀ (ds : List DF) (gs : List Group) (n : Nat) (g : Group), g ∈ gs →
      ∃ g2 ∈ groupAux gs n ds, g2.key = g.key ∧ ∀ m ∈ g.memberNums, m ∈ g2.memberNums := by
  intro ds
  induction ds with
  | nil => intro gs n g hg; exact ⟨g, hg, rfl, fun m hm => hm⟩
  | cons d rest ih =>
    intro gs n g hg
    rw [groupAux]
    obtain ⟨g1, hg1, hk1, hm1⟩ := insertTable_preserve n d hg
    obtain ⟨g2, hg2, hk2, hm2⟩ := ih _ (n + 1) g1 hg1
    exact ⟨g2, hg2, hk2.trans hk1, fun m hm => hm2 m (hm1 m hm)⟩

lemma groupAux_total :
    ∀ (ds : List DF) (gs : List Group) (n : Nat) (k : Nat), k < ds.length →
      ∃ g ∈ groupAux gs n ds, (n + k) ∈ g.memberNums := by
  intro ds
  induction ds with
  | nil => intro gs n k hk; exact absurd hk (by simp)
  | cons d rest ih =>
    intro gs n k hk
    rw [groupAux]
    cases k with
    | zero =>
      obtain ⟨g1, hg1, hn, -⟩ := insertTable_new_mem n d gs
      obtain ⟨g2, hg2, -, hm2⟩ := groupAux_preserve rest _ (n + 1) g1 hg1
      exact ⟨g2, hg2, hm2 n hn⟩
    | succ k2 =>
      obtain ⟨g, hg, hm⟩ := ih _ (n + 1) k2 (by simpa using Nat.lt_of_succ_lt_succ hk)
      refine ⟨g, hg, ?_⟩
      have : n + 1 + k2 = n + (k2 + 1) := by omega
      rwa [this] at hm

/-- Normalized signature of the table at 1-based number `m` of `ds`. -/
def sigOf (ds : List DF) (m : Nat) : List String :=
  normKey ((ds.getD (m - 1) dfltDF).cols)

/-- Tables numbered `a` and `b` (1-based) land in a common group. -/
def sameGroup (ds : List DF) (a b : Nat) : Prop :=
  ∃ g, g ∈ groupTables ds ∧ a ∈ g.memberNums ∧ b ∈ g.memberNums

instance (ds : List DF) (a b : Nat) : Decidable (sameGroup ds a b) := by
  unfold sameGroup
  infer_instance

lemma groupTables_invMembers (ds : List DF) :
    InvMembers (sigOf ds) (groupTables ds) := by
  refine groupAux_invMembers ds [] 1 (fun g hg => absurd hg (by simp)) ?_
  intro k hk
  simp [sigOf]

lemma groupTables_invKeys (ds : List DF) : InvKeys (groupTables ds) :=
  groupAux_invKeys ds [] 1 (by simp [InvKeys])

lemma groupTables_invFirst (ds : List DF) : InvFirst (groupTables ds) :=
  groupAux_invFirst ds [] 1 (fun g hg => absurd hg (by simp))

lemma groupTables_total (ds : List DF) (k : Nat) (hk : k < ds.length) :
    ∃ g ∈ groupTables ds, (k + 1) ∈ g.memberNums := by
  obtain ⟨g, hg, hm⟩ := groupAux_total ds [] 1 k hk
  refine ⟨g, hg, ?_⟩
  rwa [Nat.add_comm 1 k] at hm

lemma groupTables_unique_key (ds : List DF) {g1 g2 : Group}
    (h1 : g1 ∈ groupTables ds) (h2 : g2 ∈ groupTables ds)
    (hk : normKey g1.key = normKey g2.key) : g1 = g2 := by
  by_contra hne
  have hsym : Symmetric (fun a b : Group => normKey a.key ≠ normKey b.key) :=
    fun a b h he => h he.symm
  exact (List.Pairwise.forall hsym (groupTables_invKeys ds) h1 h2 hne) hk

lemma sameGroup_iff_sig (ds : List DF) (i j : Nat)
    (hi : i < ds.length) (hj : j < ds.length) :
    sameGroup ds (i + 1) (j + 1) ↔ sigOf ds (i + 1) = sigOf ds (j + 1) := by
  constructor
  · rintro ⟨g, hg, hm1, hm2⟩
    have h1 := groupTables_invMembers ds g hg _ hm1
    have h2 := groupTables_invMembers ds g hg _ hm2
    rw [h1, h2]
  · intro hs
    obtain ⟨g1, hg1, hm1⟩ := groupTables_total ds i hi
    obtain ⟨g2, hg2, hm2⟩ := groupTables_total ds j hj
    have h1 := groupTables_invMembers ds g1 hg1 _ hm1
    have h2 := groupTables_invMembers ds g2 hg2 _ hm2
    have hk : normKey g1.key = normKey g2.key := by rw [← h1, ← h2, hs]
    have : g1 = g2 := groupTables_unique_key ds hg1 hg2 hk
    subst this
    exact ⟨g1, hg1, hm1, hm2⟩

lemma snd_mem_of_mem_enumFrom {α : Type} :
    ∀ (l : List α) (n : Nat) (p : Nat × α), p ∈ List.enumFrom n l → p.2 ∈ l := by
  intro l
  induction l with
  | nil => intro n p h; cases h
  | cons a tl ih =>
    intro n p h
    rcases List.mem_cons.mp h with rfl | h2
    · exact List.mem_cons_self _ _
    · exact List.mem_cons_of_mem _ (ih (n + 1) p h2)

lemma sameColsAll_getD {dfs : List DF} (hs : sameColsAll dfs = true) {k : Nat}
    (hk : k < dfs.length) :
    (dfs.getD k dfltDF).cols = (dfs.headD dfltDF).cols := by
  cases dfs with
  | nil => exact absurd hk (by simp)
  | cons d rest =>
    cases k with
    | zero => rfl
    | succ k2 =>
      have hall : ∀ d2 ∈ rest, d2.cols = d.cols := by
        intro d2 hd2
        have := by simpa [sameColsAll, List.all_eq_true] using hs
        exact this d2 hd2
      have hmem : rest.getD k2 dfltDF ∈ rest :=
        getD_mem_of_lt _ _ _ (by simpa using hk)
      simp only [List.getD_cons_succ, List.headD_cons]
      exact hall _ hmem

lemma concatDFs_length (dfs : List DF) :
    (concatDFs dfs).cells.length = (dfs.map (fun d => d.cells.length)).sum := by
  unfold concatDFs
  split
  · rw [flatMap_length_sum]
  · rw [flatMap_length_sum]
    congr 1
    exact List.map_congr_left (fun d _ => by simp)

lemma concatDFs_lookup (dfs : List DF) (k j : Nat) (c : String)
    (hk : k < dfs.length) (hj : j < (dfs.getD k dfltDF).cells.length) :
    lookupInDF (concatDFs dfs).cols
      ((concatDFs dfs).cells.getD
        (((dfs.take k).map (fun d => d.cells.length)).sum + j) [])
      c
    = lookupInDF (dfs.getD k dfltDF).cols ((dfs.getD k dfltDF).cells.getD j []) c := by
  unfold concatDFs
  split
  · next hs =>
    have hoff := flatMap_getD_offset (fun d : DF => d.cells) dfltDF ([] : List String)
      dfs k j hk hj
    simp only at hoff ⊢
    rw [hoff, sameColsAll_getD hs hk]
    rfl
  · next hs =>
    have hj2 : j < ((fun d : DF =>
        d.cells.map (fun r => (unionColsOf dfs).map (lookupInDF d.cols r)))
          (dfs.getD k dfltDF)).length := by
      simpa using hj
    have hoff := flatMap_getD_offset
      (fun d : DF => d.cells.map (fun r => (unionColsOf dfs).map (lookupInDF d.cols r)))
      dfltDF ([] : List String) dfs k j hk hj2
    have hsum : ((dfs.take k).map (fun a : DF =>
        ((fun d : DF => d.cells.map
          (fun r => (unionColsOf dfs).map (lookupInDF d.cols r))) a).length)).sum
        = ((dfs.take k).map (fun d : DF => d.cells.length)).sum := by
      congr 1
      exact List.map_congr_left (fun d _ => by simp)
    rw [hsum] at hoff
    simp only at hoff ⊢
    rw [hoff]
    rw [getD_map_of_lt _ _ _ ([] : List String) _ hj]
    exact lookupInDF_pad _ _ _ _
      (fun x hx => mem_unionColsOf (getD_mem_of_lt dfs k dfltDF hk) hx)

lemma processTables_ledger (ts : List RawTable) :
    (processTables ts).ledger = concatDFs (processedDfs ts) := by
  unfold processTables
  cases h : processedDfs ts with
  | nil => rfl
  | cons d rest => rfl

lemma mkDF_cells_length (rows : List Row) :
    (mkDF rows).cells.length = rows.length := by
  simp [mkDF]

lemma mkDF_cell_lookup (rows : List Row) (j : Nat) (c : String)
    (hj : j < rows.length) :
    lookupInDF (mkDF rows).cols ((mkDF rows).cells.getD j []) c
      = ((rows.getD j []).lookup c).getD "" := by
  unfold mkDF
  dsimp only
  rw [getD_map_of_lt (fun r : Row => (rowsKeyUnion rows).map (fun c2 => (r.lookup c2).getD ""))
      rows j ([] : Row) ([] : List String) hj]
  by_cases hc : c ∈ rowsKeyUnion rows
  · rw [lookupInDF_map_fun _ _ _ hc]
  · have h1 : List.findIdx? (fun x => x == c) (rowsKeyUnion rows) = none :=
      findIdx?_none_of_not_mem hc
    have h2 : (rows.getD j []).lookup c = none := by
      refine lookup_none_of_not_mem_keys (fun hm => hc ?_)
      exact mem_rowsKeyUnion (getD_mem_of_lt rows j [] hj) hm
    rw [List.getD_eq_getElem?_getD] at h2
    simp [lookupInDF, h1, h2]

lemma genericCols_no_empty (n : Nat) :
    List.findIdx? (fun c => c == "") (genericCols n) = none := by
  refine List.findIdx?_eq_none_iff.mpr ?_
  intro x hx
  unfold genericCols at hx
  obtain ⟨i, -, rfl⟩ := List.mem_map.mp hx
  rw [beq_eq_false_iff_ne]
  intro he
  have hlen := congrArg String.length he
  rw [String.length_append] at hlen
  simp at hlen
  exact absurd hlen.1 (by decide)

lemma mergeSplit_of_no_empty {d : DF}
    (h : List.findIdx? (fun c => c == "") d.cols = none) : mergeSplit d = d := by
  unfold mergeSplit
  rw [h]

/-! Concrete inputs used by the scenario parts of the claims. -/

/-- The single-table scenario of the header-resolution claim. -/
def c1ScenarioTable : RawTable :=
  ⟨["0", "1"], [[("0", "Date"), ("1", "Amount")], [("0", "2024-01-01"), ("1", "100")]]⟩

/-- A first table with genuine headers, usable as a master-schema donor. -/
def namedFirstTable : RawTable :=
  ⟨["Date", "Amount"], [[("Date", "d0"), ("Amount", "5")]]⟩

/-- A first table whose columns are all numeric placeholders. -/
def c2BadFirst : RawTable :=
  ⟨["0", "1", "2"], [[("0", "x"), ("1", "y"), ("2", "z")]]⟩

def dfDateAmount : DF := ⟨["Date", "Amount"], [["d1", "10"]]⟩

def dfAmountDate : DF := ⟨["Amount", "Date"], [["10", "d1"]]⟩

def dfValuePart : DF := ⟨["Value", "Particulars"], [["v1", "p1"]]⟩

def dfValueDatePart : DF := ⟨["Value Date", "Particulars"], [["v2", "p2"]]⟩

def c6TableA : RawTable :=
  ⟨["Date", "Amount"], [[("Date", "d1"), ("Amount", "10")]]⟩

def c6TableB : RawTable :=
  ⟨["Date", "Amount", "Extra"],
   [[("Date", "d2"), ("Amount", "20"), ("Extra", "e")]]⟩

/-- A first table whose reported columns differ from its record keys and
whose records carry an empty-string key at index 1. -/
def c9FirstTable : RawTable :=
  ⟨["X", "Y"], [[("A", "a1"), ("", "b1"), ("B", "c1")]]⟩

def c4DemoDF : DF := ⟨["A", "", "B"], [["x ", " y", "z"]]⟩

/-- A non-first table with three numeric columns and no keyword row. -/
def c7DemoTable : RawTable :=
  ⟨["0", "1", "2"], [[("0", "r1a"), ("1", "r1b"), ("2", "r1c")]]⟩

def c10GoodTable : RawTable := ⟨["Date"], [[("Date", "/uni0041")]]⟩

def c10BadTable : RawTable := ⟨["Date"], [[("Date", "/uniZZZZ")]]⟩

/-! Claim theorems. -/

/-- C10: before any table processing the whole input is re-serialized to
JSON with every `/uni` replaced by `\u` and re-parsed: cell text
`/uni0041` silently decodes to `A` (shown at string level and through a
full consolidation call), and a cell containing `/uni` not followed by
four hex digits makes the call raise a JSON decoding error instead of
returning a ledger. -/
theorem c10_unicode_fixup_roundtrip :
    strUniFix "/uni0041" = some "A"
  ∧ strUniFix "/uniZZZZ" = none
  ∧ processTablesE [c10GoodTable]
      = .ok ⟨⟨["Date"], [["A"]]⟩,
             [⟨1, "Transaction Table 1", ["Date"], 1, [["A"]], [1]⟩],
             [⟨1, ["Date"], 1, ⟨["Date"], [["A"]]⟩, [1]⟩]⟩
  ∧ processTablesE [c10BadTable] = .error .jsonDecode :=
  ⟨by decide, by decide, by decide, by decide⟩

/-- C2 counterexample: on a first table whose columns are all numeric the
consolidation returns normally with the empty tuple — the call yields
`.ok` with an empty ledger, not a propagated `NoMasterHeaders` error (the
"no ledger is produced" half of the claim does hold). -/
theorem c2_no_master_headers_returns_ok_empty :
    processTablesE [c2BadFirst] = .ok emptyProcOut
  ∧ (processTables [c2BadFirst]).ledger.cells = [] :=
  ⟨by decide, by decide⟩

/-- C2 amended: if the first table's columns are all numeric (or absent),
the run stops before processing any table and returns the empty result —
empty ledger, no table info, no merged tables — but no exception is raised
and nothing is propagated to the caller as an error. -/
theorem c2_all_numeric_first_table_yields_empty_run
    (t : RawTable) (rest : List RawTable)
    (h : t.columns.all pyIsDigit = true) :
    processTables (t :: rest) = emptyProcOut
  ∧ processedDfs (t :: rest) = [] := by
  have hm : masterHeadersOf t = none := by
    simp [masterHeadersOf, h]
  have hd : processedDfs (t :: rest) = [] := by
    simp only [processedDfs, hm]
  refine ⟨?_, hd⟩
  simp only [processTables, hd]

/-- Witness for the C2 amended theorem at a concrete bad first table. -/
theorem c2_all_numeric_first_table_yields_empty_run_witness :
    processTables [c2BadFirst] = emptyProcOut :=
  (c2_all_numeric_first_table_yields_empty_run c2BadFirst [] (by decide)).1

/-- C1 counterexample: the claim's single-table scenario makes its table
the first table of the run, and the first table's all-numeric columns end
the run with the empty result — nothing resolves to columns
`["Date","Amount"]` with one row; the output carries no tables and no
rows. -/
theorem c1_single_table_scenario_returns_empty :
    processTablesE [c1ScenarioTable] = .ok emptyProcOut
  ∧ processedDfs [c1ScenarioTable] = [] :=
  ⟨by decide, by decide⟩

/-- C1 amended: header-row adoption applies to tables after the first.
For every non-first table whose data-derived columns are all numeric and
whose first row bears a keyword, the stripped first-row cells become the
columns and that row is dropped, so the resolved table has exactly one row
fewer than the raw table; the scenario table resolves to
`["Date","Amount"]` with one row once a named first table precedes it,
while alone it is rejected as the first table. -/
theorem c1_numeric_header_row_adoption
    (master : List String) (t : RawTable)
    (h1 : t.data.isEmpty = false)
    (h2 : (mkDF t.data).isEmptyDF = false)
    (h3 : (mkDF t.data).cols.all pyIsDigit = true)
    (h4 : hasHeaderKeyword ((mkDF t.data).cells.headD []) = true) :
    processSubsequent master t
      = some (mergeSplit ⟨((mkDF t.data).cells.headD []).map pyStrip,
                          (mkDF t.data).cells.tail⟩)
  ∧ (mergeSplit ⟨((mkDF t.data).cells.headD []).map pyStrip,
        (mkDF t.data).cells.tail⟩).cells.length = t.data.length - 1
  ∧ processedDfs [namedFirstTable, c1ScenarioTable]
      = [⟨["Date", "Amount"], [["d0", "5"]]⟩,
         ⟨["Date", "Amount"], [["2024-01-01", "100"]]⟩] := by
  refine ⟨?_, ?_, by decide⟩
  · unfold processSubsequent
    rw [h1]
    simp only [Bool.false_eq_true, if_false, h2, h3, h4, if_true]
  · rw [mergeSplit_cells_length]
    simp [List.length_tail, mkDF_cells_length]

/-- Witness for the C1 amended theorem: the scenario table as the second
table of a run. -/
theorem c1_numeric_header_row_adoption_witness :
    processSubsequent namedFirstTable.columns c1ScenarioTable
      = some (mergeSplit ⟨((mkDF c1ScenarioTable.data).cells.headD []).map pyStrip,
                          (mkDF c1ScenarioTable.data).cells.tail⟩) :=
  (c1_numeric_header_row_adoption namedFirstTable.columns c1ScenarioTable
    (by decide) (by decide) (by decide) (by decide)).1

/-- C8: the grouper is deterministic — equal resolved-table sequences give
identical groups (hence identical signatures, member order, and merged
tables), and the display numbers are sequential starting at 1 in
first-member-encounter order. -/
theorem c8_grouper_deterministic (ds1 ds2 : List DF) (h : ds1 = ds2) :
    groupTables ds1 = groupTables ds2
  ∧ (groupTables ds1).map (fun g => normKey g.key)
      = (groupTables ds2).map (fun g => normKey g.key)
  ∧ mkIndividual (groupTables ds1) = mkIndividual (groupTables ds2)
  ∧ (mkIndividual (groupTables ds1)).map (fun m => m.number)
      = List.range' 1 (groupTables ds1).length := by
  subst h
  refine ⟨rfl, rfl, rfl, ?_⟩
  unfold mkIndividual
  have h2 : ((groupTables ds1).enum.map (fun p : Nat × Group =>
      ({ number := p.1 + 1
         columns := p.2.key
         rowCount := (p.2.members.flatMap (fun m => m.2.cells)).length
         data := ⟨p.2.key, p.2.members.flatMap (fun m => m.2.cells)⟩
         mergedFrom := p.2.memberNums } : MergedTable))).map (fun m => m.number)
      = ((groupTables ds1).enum.map Prod.fst).map (fun x => x + 1) := by
    rw [List.map_map, List.map_map]
    rfl
  rw [h2, List.enum_map_fst, List.range'_eq_map_range]
  exact List.map_congr_left (fun x _ => Nat.add_comm x 1)

/-- Witness for the C8 theorem at a concrete table list. -/
theorem c8_grouper_deterministic_witness :
    (mkIndividual (groupTables [dfDateAmount])).map (fun m => m.number)
      = List.range' 1 (groupTables [dfDateAmount]).length :=
  (c8_grouper_deterministic [dfDateAmount] [dfDateAmount] rfl).2.2.2

/-- C3: two resolved tables land in the same column group iff their
normalized column tuples are positionally identical; every group's key is
its first member's original column list, and every merged table is
re-labelled to that key.  In particular `["Date","Amount"]` and
`["Amount","Date"]` never share a group, while `["Value","Particulars"]`
and `["Value Date","Particulars"]` merge into one group carrying the first
member's original labels. -/
theorem c3_grouping_iff_normalized_signature (ds : List DF) :
    (∀ i j, i < ds.length → j < ds.length →
      (sameGroup ds (i + 1) (j + 1)
        ↔ normKey (ds.getD i dfltDF).cols = normKey (ds.getD j dfltDF).cols))
  ∧ (∀ g ∈ groupTables ds, ∃ p ms, g.members = p :: ms ∧ p.2.cols = g.key)
  ∧ (∀ m ∈ mkIndividual (groupTables ds), ∃ g ∈ groupTables ds,
      m.columns = g.key ∧ m.data.cols = g.key)
  ∧ ¬ sameGroup [dfDateAmount, dfAmountDate] 1 2
  ∧ sameGroup [dfValuePart, dfValueDatePart] 1 2
  ∧ (mkIndividual (groupTables [dfValuePart, dfValueDatePart])).map
        (fun m => (m.columns, m.data.cells))
      = [(["Value", "Particulars"], [["v1", "p1"], ["v2", "p2"]])] := by
  refine ⟨?_, groupTables_invFirst ds, ?_, by decide, by decide, by decide⟩
  · intro i j hi hj
    have h := sameGroup_iff_sig ds i j hi hj
    simpa [sigOf] using h
  · intro m hm
    unfold mkIndividual at hm
    obtain ⟨p, hp, rfl⟩ := List.mem_map.mp hm
    refine ⟨p.2, snd_mem_of_mem_enumFrom _ 0 p ?_, rfl, rfl⟩
    simpa [List.enum] using hp

/-- Witness for the C3 theorem: the Value/Value-Date pair merges, via the
general characterization. -/
theorem c3_grouping_iff_normalized_signature_witness :
    sameGroup [dfValuePart, dfValueDatePart] (0 + 1) (1 + 1) :=
  ((c3_grouping_iff_normalized_signature [dfValuePart, dfValueDatePart]).1 0 1
    (by decide) (by decide)).mpr (by decide)

/-- C5: the master ledger is the pure concatenation of the resolved
tables' rows in original table order: its row count is the sum of the
parts, the row at each table's offset agrees column-by-column with the
source row, nothing is deduplicated (a table repeated twice contributes
its row twice), the result is identical on identical input, and the
pipeline's ledger is exactly this concatenation. -/
theorem c5_ledger_concatenation_order (dfs : List DF) :
    (concatDFs dfs).cells.length = (dfs.map (fun d => d.cells.length)).sum
  ∧ (∀ k j c, k < dfs.length → j < (dfs.getD k dfltDF).cells.length →
      lookupInDF (concatDFs dfs).cols
        ((concatDFs dfs).cells.getD
          (((dfs.take k).map (fun d => d.cells.length)).sum + j) []) c
      = lookupInDF (dfs.getD k dfltDF).cols
          ((dfs.getD k dfltDF).cells.getD j []) c)
  ∧ (∀ dfs2, dfs = dfs2 → concatDFs dfs = concatDFs dfs2)
  ∧ (concatDFs [⟨["A"], [["x"]]⟩, ⟨["A"], [["x"]]⟩]).cells = [["x"], ["x"]]
  ∧ (∀ ts : List RawTable, (processTables ts).ledger = concatDFs (processedDfs ts)) := by
  refine ⟨concatDFs_length dfs, ?_, ?_, by decide, processTables_ledger⟩
  · intro k j c hk hj
    exact concatDFs_lookup dfs k j c hk hj
  · intro dfs2 h
    rw [h]

/-- Witness for the C5 theorem at a concrete one-table ledger. -/
theorem c5_ledger_concatenation_order_witness :
    lookupInDF (concatDFs [dfDateAmount]).cols
      ((concatDFs [dfDateAmount]).cells.getD
        ((([dfDateAmount].take 0).map (fun d => d.cells.length)).sum + 0) []) "Date"
    = lookupInDF ([dfDateAmount].getD 0 dfltDF).cols
        (([dfDateAmount].getD 0 dfltDF).cells.getD 0 []) "Date" :=
  (c5_ledger_concatenation_order [dfDateAmount]).2.1 0 0 "Date" (by decide) (by decide)

/-- C6 counterexample: a run whose second table carries an extra column
produces `detected_headers` equal to the union of all tables' labels, not
to the first table's labels. -/
theorem c6_detected_headers_union_counterexample :
    (convertToStructuredFormat (processTables [c6TableA, c6TableB]).ledger).detectedHeaders
        = some ["Date", "Amount", "Extra"]
  ∧ ((processedDfs [c6TableA, c6TableB]).headD dfltDF).cols = ["Date", "Amount"]
  ∧ (["Date", "Amount", "Extra"] : List String) ≠ ["Date", "Amount"] :=
  ⟨by decide, by decide, by decide⟩

/-- C6 amended: `metadata.detected_headers` equals the ledger DataFrame's
column labels — the shared column list when all tables agree, otherwise
the first-seen union of every table's labels (so every table's labels are
included, not only the first table's). -/
theorem c6_detected_headers_are_ledger_columns (dfs : List DF)
    (h : (concatDFs dfs).isEmptyDF = false) :
    (convertToStructuredFormat (concatDFs dfs)).detectedHeaders = some (concatDFs dfs).cols
  ∧ (concatDFs dfs).cols
      = (if sameColsAll dfs then (dfs.headD dfltDF).cols else unionColsOf dfs)
  ∧ (∀ d ∈ dfs, ∀ c ∈ d.cols, sameColsAll dfs = false → c ∈ (concatDFs dfs).cols) := by
  refine ⟨?_, ?_, ?_⟩
  · simp [convertToStructuredFormat, h]
  · unfold concatDFs
    split
    · rfl
    · rfl
  · intro d hd c hc hs
    unfold concatDFs
    rw [if_neg (by simp [hs])]
    exact mem_unionColsOf hd hc

/-- Witness for the C6 amended theorem at a two-schema ledger. -/
theorem c6_detected_headers_are_ledger_columns_witness :
    (convertToStructuredFormat (concatDFs [dfDateAmount, dfAmountDate])).detectedHeaders
      = some (concatDFs [dfDateAmount, dfAmountDate]).cols :=
  (c6_detected_headers_are_ledger_columns [dfDateAmount, dfAmountDate] (by decide)).1

/-- C7: a non-first table whose data-derived columns are all numeric, whose
first row bears no header keyword, and whose column count differs from the
master's resolves to the generic names `Column_1..Column_N` with every row
retained, and the table is never dropped from the run: it still enters the
processed list wherever it occurs.  No error value exists on this path —
the condition surfaces only through the generic names themselves. -/
theorem c7_count_mismatch_generic_names
    (master : List String) (t : RawTable)
    (h1 : t.data.isEmpty = false)
    (h2 : (mkDF t.data).isEmptyDF = false)
    (h3 : (mkDF t.data).cols.all pyIsDigit = true)
    (h4 : hasHeaderKeyword ((mkDF t.data).cells.headD []) = false)
    (h5 : (mkDF t.data).cols.length ≠ master.length) :
    processSubsequent master t
      = some ⟨genericCols (mkDF t.data).cols.length, (mkDF t.data).cells⟩
  ∧ (∀ (first : RawTable) (pre post : List RawTable),
      masterHeadersOf first = some master →
      (⟨genericCols (mkDF t.data).cols.length, (mkDF t.data).cells⟩ : DF)
        ∈ processedDfs (first :: (pre ++ t :: post))) := by
  have hmain : processSubsequent master t
      = some ⟨genericCols (mkDF t.data).cols.length, (mkDF t.data).cells⟩ := by
    unfold processSubsequent
    rw [h1]
    simp only [Bool.false_eq_true, if_false, h2, h3, h4, if_true, if_neg h5]
    rw [mergeSplit_of_no_empty (genericCols_no_empty _)]
  refine ⟨hmain, ?_⟩
  intro first pre post hfirst
  simp only [processedDfs, hfirst]
  refine List.mem_cons_of_mem _ (List.mem_filterMap.mpr ⟨t, ?_, hmain⟩)
  exact List.mem_append_right pre (List.mem_cons_self _ _)

/-- Witness for the C7 theorem: a 3-column numeric table against a
4-column master keeps its row under generic names. -/
theorem c7_count_mismatch_generic_names_witness :
    processSubsequent ["A", "B", "C", "D"] c7DemoTable
      = some ⟨genericCols (mkDF c7DemoTable.data).cols.length, (mkDF c7DemoTable.data).cells⟩ :=
  (c7_count_mismatch_generic_names ["A", "B", "C", "D"] c7DemoTable
    (by decide) (by decide) (by decide) (by decide) (by decide)).1

/-- C9: the first table of a run that passes the master-header check enters
the processed list exactly as ingested — no header row consumed, no
relabelling, no split-column repair — its effective columns are the
first-seen union of its records' keys (not its reported column list), and
a missing key reads back as `""`. -/
theorem c9_first_table_passthrough (t : RawTable) (rest : List RawTable)
    (h1 : t.columns.isEmpty = false)
    (h2 : t.columns.all pyIsDigit = false) :
    processedDfs (t :: rest)
      = mkDF t.data :: rest.filterMap (processSubsequent t.columns)
  ∧ (mkDF t.data).cells.length = t.data.length
  ∧ (mkDF t.data).cols = rowsKeyUnion t.data
  ∧ (∀ j c, j < t.data.length →
      lookupInDF (mkDF t.data).cols ((mkDF t.data).cells.getD j []) c
        = ((t.data.getD j []).lookup c).getD "") := by
  have hm : masterHeadersOf t = some t.columns := by
    simp [masterHeadersOf, h1, h2]
  refine ⟨by simp only [processedDfs, hm], mkDF_cells_length t.data, rfl, ?_⟩
  intro j c hj
  exact mkDF_cell_lookup t.data j c hj

/-- Witness for the C9 theorem: a first table whose record keys differ
from its reported columns and include an empty-string key that survives. -/
theorem c9_first_table_passthrough_witness :
    processedDfs [c9FirstTable]
      = mkDF c9FirstTable.data
          :: List.filterMap (processSubsequent c9FirstTable.columns) [] :=
  (c9_first_table_passthrough c9FirstTable [] (by decide) (by decide)).1

/-- C4: split-column merging with the empty label at index `i > 0` (and the
pandas operations succeeding, i.e. the empty label and its left neighbour
unique) keeps the row count, rewrites column `i-1` to
`strip(left) + " " + strip(right)` and drops column `i`, leaving no
empty-string column; when the empty label is absent, at index 0, or the
merge would raise, the table passes through unchanged and the run does not
abort. -/
theorem c4_split_column_merge (d : DF) (i : Nat) :
    (List.findIdx? (fun c => c == "") d.cols = some i → i ≠ 0 →
      d.cols.count "" = 1 → d.cols.count (d.cols.getD (i - 1) "") = 1 →
        (mergeSplit d).cells.length = d.cells.length
      ∧ "" ∉ (mergeSplit d).cols
      ∧ (mergeSplit d).cols = d.cols.eraseIdx i
      ∧ (mergeSplit d).cells = d.cells.map (fun r =>
          (r.set (i - 1)
            (pyStrip (r.getD (i - 1) "") ++ " " ++ pyStrip (r.getD i ""))).eraseIdx i))
  ∧ (List.findIdx? (fun c => c == "") d.cols = none → mergeSplit d = d)
  ∧ (List.findIdx? (fun c => c == "") d.cols = some 0 → mergeSplit d = d)
  ∧ (List.findIdx? (fun c => c == "") d.cols = some i → i ≠ 0 →
      ¬(d.cols.count "" = 1 ∧ d.cols.count (d.cols.getD (i - 1) "") = 1) →
      mergeSplit d = d) := by
  refine ⟨?_, ?_, ?_, ?_⟩
  · intro h hi hc1 hc2
    have hguard : (d.cols.count "" == 1 && d.cols.count (d.cols.getD (i - 1) "") == 1) = true := by
      rw [hc1, hc2]
      rfl
    have hres : mergeSplit d =
        ⟨d.cols.eraseIdx i,
         d.cells.map (fun r =>
           (r.set (i - 1)
             (pyStrip (r.getD (i - 1) "") ++ " " ++ pyStrip (r.getD i ""))).eraseIdx i)⟩ := by
      unfold mergeSplit
      rw [h]
      dsimp only
      rw [if_neg hi, if_pos hguard]
    obtain ⟨hlt, hp, hbefore⟩ := findIdx?_some_facts (fun c => c == "") d.cols i "" h
    refine ⟨by rw [hres]; simp, ?_, by rw [hres], by rw [hres]⟩
    rw [hres]
    exact count_eraseIdx_zero hlt (by simpa using hp) hc1
      (fun j hj => by simpa using hbefore j hj)
  · intro h
    unfold mergeSplit
    rw [h]
  · intro h
    unfold mergeSplit
    rw [h]
    dsimp only
    rw [if_pos rfl]
  · intro h hi hc
    have hguard : (d.cols.count "" == 1 && d.cols.count (d.cols.getD (i - 1) "") == 1) = false := by
      by_cases hc1 : d.cols.count "" = 1
      · by_cases hc2 : d.cols.count (d.cols.getD (i - 1) "") = 1
        · exact absurd ⟨hc1, hc2⟩ hc
        · rw [beq_eq_false_iff_ne.mpr hc2, Bool.and_false]
      · rw [beq_eq_false_iff_ne.mpr hc1, Bool.false_and]
    unfold mergeSplit
    rw [h]
    dsimp only
    rw [if_neg hi, if_neg (by rw [hguard]; exact Bool.false_ne_true)]

/-- Witness for the C4 theorem: a concrete successful merge. -/
theorem c4_split_column_merge_witness :
    (mergeSplit c4DemoDF).cells.length = c4DemoDF.cells.length
  ∧ "" ∉ (mergeSplit c4DemoDF).cols
  ∧ (mergeSplit c4DemoDF).cols = c4DemoDF.cols.eraseIdx 1
  ∧ (mergeSplit c4DemoDF).cells = c4DemoDF.cells.map (fun r =>
      (r.set 0 (pyStrip (r.getD 0 "") ++ " " ++ pyStrip (r.getD 1 ""))).eraseIdx 1) :=
  (c4_split_column_merge c4DemoDF 1).1 (by decide) (by decide) (by decide) (by decide)

end ParseSaas
